import Mathlib

/-!
Verification of the compiled-pattern cache and REGEXP predicate adapter of
the go-sqlite-regexp package.

The package delegates compilation and matching to the standard
regular-expression library of the host language (an external dependency), so that
library is modelled abstractly: a compiled matcher is a total boolean test
on strings (`Regexp`), and the library supplies a deterministic
`compile : String -> Except String Regexp` that either fails with an error
value or produces a matcher (`RegexpLib`).

The process-wide cache `regexpCache` is a string-keyed map populated only
through `regexpFunction`; it is embedded as an association list whose
insert operation has the overwrite semantics of a map assignment
(`cache[pattern] = re`).  The stateful functions of the source are embedded
as explicit state-passing functions on this cache type.
-/

set_option autoImplicit false

namespace SqliteRegexp

/-- A compiled regular expression, as the source uses it: an immutable value
whose only observable capability is `MatchString`, a total boolean test of a
text against the pattern (mirrors the compiled-matcher object of
the host library). -/
structure Regexp where
  MatchString : String → Bool

/-- The host regular-expression library, abstracted: `compile` turns a
pattern string into a compiled matcher or fails with an error value.  It is
a Lean function, hence deterministic, matching the deterministic compiler of
the host library. -/
structure RegexpLib where
  compile : String → Except String Regexp

/-- The contents of the process-wide `regexpCache.cache` map: an association
list from pattern strings to compiled matchers.  All reachable caches have
pairwise-distinct keys (proved below), so the embedding agrees with the map
it models. -/
abbrev Cache := List (String × Regexp)

/-- Map lookup, `re, exists := cache[pattern]` in the source. -/
def Cache.lookup : Cache → String → Option Regexp
  | [], _ => none
  | (q, re) :: rest, p => if q = p then some re else Cache.lookup rest p

/-- Map assignment, `cache[pattern] = re` in the source: overwrites the
binding for an existing key, otherwise adds a new binding. -/
def Cache.insert : Cache → String → Regexp → Cache
  | [], p, re => [(p, re)]
  | (q, r) :: rest, p, re =>
    if q = p then (p, re) :: rest else (q, r) :: Cache.insert rest p re

/-- The initial value of `regexpCache.cache`: `make(map[string]*regexp.Regexp)`,
an empty map. -/
def regexpCacheInit : Cache := []

/-- Embeds `ClearRegexpCache`: the cache contents after clearing, a fresh
empty map. -/
def ClearRegexpCache : Cache := []

/-- Embeds `GetCacheSize`: `len(regexpCache.cache)`, the number of entries. -/
def GetCacheSize (c : Cache) : Nat := c.length

/-- Embeds `regexpFunction(pattern, text string) (int, error)`, with the
cache state passed explicitly: look the pattern up; on a miss compile it
(returning `(0, err)` on a compilation error) and store the result; then
match the text and reduce to 1 or 0.  The first component is the `(int,
error)` return value (`none` stands for a nil error), the second the cache state
after the call. -/
def regexpFunction (lib : RegexpLib) (c : Cache) (pattern text : String) :
    (Int × Option String) × Cache :=
  match Cache.lookup c pattern with
  | some re => ((if re.MatchString text then 1 else 0, none), c)
  | none =>
    match lib.compile pattern with
    | Except.error err => ((0, some err), c)
    | Except.ok re =>
      ((if re.MatchString text then 1 else 0, none), Cache.insert c pattern re)

/-- One externally invokable operation on the shared cache state: a call of
the predicate adapter, or a cache clear. -/
inductive Op where
  | eval (pattern text : String)
  | clear

/-- The cache state after one operation. -/
def runOp (lib : RegexpLib) (c : Cache) : Op → Cache
  | Op.eval p t => (regexpFunction lib c p t).2
  | Op.clear => ClearRegexpCache

/-- The cache state after a sequence of operations. -/
def runOps (lib : RegexpLib) (c : Cache) : List Op → Cache
  | [] => c
  | op :: rest => runOps lib (runOp lib c op) rest

/-- Every entry of the cache is the (successful) compilation of its own key.
This holds for every reachable cache state, since entries are only created
by `regexpFunction` right after a successful compile. -/
def Cache.WF (lib : RegexpLib) (c : Cache) : Prop :=
  ∀ p re, Cache.lookup c p = some re → lib.compile p = Except.ok re

/-- The keys of the cache are pairwise distinct: at most one stored matcher
per pattern string. -/
def Cache.UniqueKeys (c : Cache) : Prop := (c.map Prod.fst).Nodup

theorem Cache.lookup_nil (p : String) : Cache.lookup [] p = none := rfl

theorem Cache.lookup_insert (c : Cache) (p q : String) (re : Regexp) :
    Cache.lookup (Cache.insert c p re) q =
      if p = q then some re else Cache.lookup c q := by
  induction c with
  | nil => simp [Cache.insert, Cache.lookup]
  | cons hd tl ih =>
    obtain ⟨k, r⟩ := hd
    by_cases hk : k = p
    · subst hk
      by_cases hq : k = q <;> simp [Cache.insert, Cache.lookup, hq]
    · by_cases hq : k = q
      · subst hq
        have hpk : ¬ p = k := fun h => hk h.symm
        simp [Cache.insert, Cache.lookup, hk, hpk]
      · simp [Cache.insert, Cache.lookup, hk, hq, ih]

theorem Cache.length_insert_of_lookup_none (c : Cache) (p : String) (re : Regexp)
    (h : Cache.lookup c p = none) :
    (Cache.insert c p re).length = c.length + 1 := by
  induction c with
  | nil => simp [Cache.insert]
  | cons hd tl ih =>
    obtain ⟨k, r⟩ := hd
    by_cases hk : k = p
    · simp [Cache.lookup, hk] at h
    · simp [Cache.lookup, hk] at h
      simp [Cache.insert, hk, ih h]

theorem Cache.mem_insert (c : Cache) (p a : String) (re b : Regexp)
    (h : (a, b) ∈ Cache.insert c p re) :
    a = p ∨ ∃ r0, (a, r0) ∈ c := by
  induction c with
  | nil =>
    simp [Cache.insert] at h
    exact Or.inl h.1
  | cons hd tl ih =>
    obtain ⟨k, r⟩ := hd
    by_cases hk : k = p
    · subst hk
      simp [Cache.insert] at h
      rcases h with h | h
      · exact Or.inl h.1
      · exact Or.inr ⟨b, by simp [h]⟩
    · simp [Cache.insert, hk] at h
      rcases h with h | h
      · exact Or.inr ⟨r, by simp [h]⟩
      · rcases ih h with h2 | h2
        · exact Or.inl h2
        · obtain ⟨r0, hr0⟩ := h2
          exact Or.inr ⟨r0, by simp [hr0]⟩

theorem Cache.uniqueKeys_insert (c : Cache) (p : String) (re : Regexp)
    (h : Cache.UniqueKeys c) : Cache.UniqueKeys (Cache.insert c p re) := by
  induction c with
  | nil => simp [Cache.insert, Cache.UniqueKeys]
  | cons hd tl ih =>
    obtain ⟨k, r⟩ := hd
    unfold Cache.UniqueKeys at h
    simp at h
    by_cases hk : k = p
    · subst hk
      unfold Cache.UniqueKeys
      simp [Cache.insert]
      exact h
    · have htl : Cache.UniqueKeys (Cache.insert tl p re) := ih h.2
      unfold Cache.UniqueKeys at htl ⊢
      simp [Cache.insert, hk]
      refine ⟨?_, htl⟩
      intro b hb
      rcases Cache.mem_insert tl p k re b hb with h2 | h2
      · exact hk h2
      · obtain ⟨r0, hr0⟩ := h2
        exact h.1 r0 hr0

theorem Cache.WF_nil (lib : RegexpLib) : Cache.WF lib [] := by
  intro p re h
  simp [Cache.lookup] at h

theorem Cache.WF_insert (lib : RegexpLib) (c : Cache) (p : String) (re : Regexp)
    (hwf : Cache.WF lib c) (hc : lib.compile p = Except.ok re) :
    Cache.WF lib (Cache.insert c p re) := by
  intro q rq hq
  rw [Cache.lookup_insert] at hq
  by_cases hpq : p = q
  · subst hpq
    simp at hq
    subst hq
    exact hc
  · rw [if_neg hpq] at hq
    exact hwf q rq hq

theorem Cache.WF_regexpFunction (lib : RegexpLib) (c : Cache) (p t : String)
    (hwf : Cache.WF lib c) : Cache.WF lib (regexpFunction lib c p t).2 := by
  unfold regexpFunction
  cases hl : Cache.lookup c p with
  | some re => simpa using hwf
  | none =>
    cases hc : lib.compile p with
    | error e => simpa using hwf
    | ok re => simpa using Cache.WF_insert lib c p re hwf hc

theorem Cache.WF_runOps (lib : RegexpLib) (c : Cache) (ops : List Op)
    (hwf : Cache.WF lib c) : Cache.WF lib (runOps lib c ops) := by
  induction ops generalizing c with
  | nil => simpa [runOps] using hwf
  | cons op rest ih =>
    cases op with
    | eval p t =>
      exact ih (regexpFunction lib c p t).2 (Cache.WF_regexpFunction lib c p t hwf)
    | clear => exact ih ClearRegexpCache (Cache.WF_nil lib)

theorem regexpFunction_of_lookup_some (lib : RegexpLib) (c : Cache)
    (p t : String) (re : Regexp) (h : Cache.lookup c p = some re) :
    regexpFunction lib c p t = ((if re.MatchString t then 1 else 0, none), c) := by
  unfold regexpFunction
  rw [h]

theorem regexpFunction_of_miss_ok (lib : RegexpLib) (c : Cache)
    (p t : String) (re : Regexp) (hl : Cache.lookup c p = none)
    (hc : lib.compile p = Except.ok re) :
    regexpFunction lib c p t =
      ((if re.MatchString t then 1 else 0, none), Cache.insert c p re) := by
  unfold regexpFunction
  rw [hl, hc]

theorem regexpFunction_of_miss_error (lib : RegexpLib) (c : Cache)
    (p t : String) (e : String) (hl : Cache.lookup c p = none)
    (hc : lib.compile p = Except.error e) :
    regexpFunction lib c p t = ((0, some e), c) := by
  unfold regexpFunction
  rw [hl, hc]

theorem Cache.lookup_none_of_WF_compile_error (lib : RegexpLib) (c : Cache)
    (p e : String) (hwf : Cache.WF lib c) (hc : lib.compile p = Except.error e) :
    Cache.lookup c p = none := by
  cases hl : Cache.lookup c p with
  | none => rfl
  | some re =>
    have := hwf p re hl
    rw [hc] at this
    exact absurd this (by simp)

theorem Cache.lookup_after_regexpFunction (lib : RegexpLib) (c : Cache)
    (p t : String) (re : Regexp) (hwf : Cache.WF lib c)
    (hc : lib.compile p = Except.ok re) :
    Cache.lookup (regexpFunction lib c p t).2 p = some re := by
  cases hl : Cache.lookup c p with
  | some re0 =>
    have h0 := hwf p re0 hl
    rw [hc] at h0
    cases h0
    rw [regexpFunction_of_lookup_some lib c p t re hl]
    exact hl
  | none =>
    rw [regexpFunction_of_miss_ok lib c p t re hl hc]
    simp [Cache.lookup_insert]

theorem Cache.uniqueKeys_regexpFunction (lib : RegexpLib) (c : Cache)
    (p t : String) (h : Cache.UniqueKeys c) :
    Cache.UniqueKeys (regexpFunction lib c p t).2 := by
  unfold regexpFunction
  cases hl : Cache.lookup c p with
  | some re => simpa using h
  | none =>
    cases hc : lib.compile p with
    | error e => simpa using h
    | ok re => simpa using Cache.uniqueKeys_insert c p re h

theorem Cache.uniqueKeys_nil : Cache.UniqueKeys [] := by
  simp [Cache.UniqueKeys]

theorem Cache.uniqueKeys_runOps (lib : RegexpLib) (c : Cache) (ops : List Op)
    (h : Cache.UniqueKeys c) : Cache.UniqueKeys (runOps lib c ops) := by
  induction ops generalizing c with
  | nil => simpa [runOps] using h
  | cons op rest ih =>
    cases op with
    | eval p t =>
      exact ih (regexpFunction lib c p t).2 (Cache.uniqueKeys_regexpFunction lib c p t h)
    | clear => exact ih ClearRegexpCache Cache.uniqueKeys_nil

/-- A concrete instantiation of the abstract host library, used to evaluate
the theorems on concrete inputs: the pattern consisting of a single opening
square bracket is malformed (the invalid pattern exercised by the tests of
the package), and every other pattern compiles to a matcher testing string
equality with the pattern text. -/
def testLib : RegexpLib where
  compile p :=
    if p = "[" then Except.error "missing closing ]"
    else Except.ok ⟨fun t => t == p⟩

/-- The matcher `testLib` produces for the pattern "ab". -/
def reAB : Regexp := ⟨fun t => t == "ab"⟩

theorem testCache_WF : Cache.WF testLib [("ab", reAB)] := by
  intro p re h
  simp [Cache.lookup] at h
  by_cases hp : "ab" = p
  · subst hp
    simp at h
    simp [testLib, reAB, h.symm]
  · simp [hp] at h

/-- Reference predicate written from the specification of `Evaluate`: compile
the pattern fresh on every call (no cache), propagate a compilation error
with result 0, otherwise reduce the match to 1 or 0. -/
def referenceEvaluate (lib : RegexpLib) (pattern text : String) :
    Int × Option String :=
  match lib.compile pattern with
  | Except.error err => (0, some err)
  | Except.ok re => (if re.MatchString text then 1 else 0, none)

theorem regexpFunction_fst_of_WF_ok (lib : RegexpLib) (c : Cache)
    (p t : String) (re : Regexp) (hwf : Cache.WF lib c)
    (hc : lib.compile p = Except.ok re) :
    (regexpFunction lib c p t).1 = (if re.MatchString t then 1 else 0, none) := by
  cases hl : Cache.lookup c p with
  | some re0 =>
    have h0 := hwf p re0 hl
    rw [hc] at h0
    cases h0
    rw [regexpFunction_of_lookup_some lib c p t re hl]
  | none =>
    rw [regexpFunction_of_miss_ok lib c p t re hl hc]

theorem regexpFunction_fst_eq_reference (lib : RegexpLib) (c : Cache)
    (p t : String) (hwf : Cache.WF lib c) :
    (regexpFunction lib c p t).1 = referenceEvaluate lib p t := by
  unfold referenceEvaluate
  cases hc : lib.compile p with
  | error e =>
    rw [regexpFunction_of_miss_error lib c p t e
      (Cache.lookup_none_of_WF_compile_error lib c p e hwf hc) hc]
  | ok re =>
    rw [regexpFunction_fst_of_WF_ok lib c p t re hwf hc]

/-- C1: for every pair (pattern, text) where the pattern is a valid regular
expression (it compiles to a matcher `re`), `regexpFunction` returns (1, nil)
when the compiled matcher reports that the text matches, and (0, nil)
otherwise.  The cache well-formedness hypothesis holds for every reachable
cache state. -/
theorem regexpFunction_matches_standard_semantics (lib : RegexpLib) (c : Cache)
    (p t : String) (re : Regexp) (hwf : Cache.WF lib c)
    (hc : lib.compile p = Except.ok re) :
    (regexpFunction lib c p t).1 = (if re.MatchString t then 1 else 0, none) :=
  regexpFunction_fst_of_WF_ok lib c p t re hwf hc

theorem regexpFunction_matches_standard_semantics_witness :
    (regexpFunction testLib [] "ab" "ab").1 =
      (if reAB.MatchString "ab" then 1 else 0, none) :=
  regexpFunction_matches_standard_semantics testLib [] "ab" "ab" reAB
    (Cache.WF_nil testLib) rfl

/-- C2: for every malformed pattern (one whose compilation fails) and every
text, `regexpFunction` returns a non-nil error, leaves the cache state (and
hence `GetCacheSize`) unchanged, and a later call with the same malformed
pattern reaches compilation again and fails with the same error. -/
theorem regexpFunction_invalid_pattern_error_not_cached (lib : RegexpLib)
    (c : Cache) (p t t2 e : String) (hwf : Cache.WF lib c)
    (hc : lib.compile p = Except.error e) :
    (regexpFunction lib c p t).1.2 = some e ∧
    (regexpFunction lib c p t).2 = c ∧
    GetCacheSize (regexpFunction lib c p t).2 = GetCacheSize c ∧
    (regexpFunction lib (regexpFunction lib c p t).2 p t2).1.2 = some e := by
  have hl := Cache.lookup_none_of_WF_compile_error lib c p e hwf hc
  rw [regexpFunction_of_miss_error lib c p t e hl hc]
  refine ⟨rfl, rfl, rfl, ?_⟩
  rw [regexpFunction_of_miss_error lib c p t2 e hl hc]

theorem regexpFunction_invalid_pattern_error_not_cached_witness :
    (regexpFunction testLib [] "[" "x").1.2 = some "missing closing ]" ∧
    (regexpFunction testLib [] "[" "x").2 = [] ∧
    GetCacheSize (regexpFunction testLib [] "[" "x").2 = GetCacheSize [] ∧
    (regexpFunction testLib (regexpFunction testLib [] "[" "x").2 "[" "y").1.2 =
      some "missing closing ]" :=
  regexpFunction_invalid_pattern_error_not_cached testLib [] "[" "x" "y"
    "missing closing ]" (Cache.WF_nil testLib) rfl

/-- C3: for every valid pattern, calling `regexpFunction` twice with that
pattern computes both results from the same compiled matcher `re` (so the
matchers behave identically on every text), and the cache size does not
increase on the second call (the second call leaves the cache untouched). -/
theorem regexpFunction_idempotent_caching (lib : RegexpLib) (c : Cache)
    (p t1 t2 : String) (re : Regexp) (hwf : Cache.WF lib c)
    (hc : lib.compile p = Except.ok re) :
    (regexpFunction lib c p t1).1 = (if re.MatchString t1 then 1 else 0, none) ∧
    (regexpFunction lib (regexpFunction lib c p t1).2 p t2).1 =
      (if re.MatchString t2 then 1 else 0, none) ∧
    (regexpFunction lib (regexpFunction lib c p t1).2 p t2).2 =
      (regexpFunction lib c p t1).2 ∧
    GetCacheSize (regexpFunction lib (regexpFunction lib c p t1).2 p t2).2 =
      GetCacheSize (regexpFunction lib c p t1).2 := by
  have h2 := Cache.lookup_after_regexpFunction lib c p t1 re hwf hc
  refine ⟨regexpFunction_fst_of_WF_ok lib c p t1 re hwf hc, ?_, ?_, ?_⟩
  · rw [regexpFunction_of_lookup_some lib (regexpFunction lib c p t1).2 p t2 re h2]
  · rw [regexpFunction_of_lookup_some lib (regexpFunction lib c p t1).2 p t2 re h2]
  · rw [regexpFunction_of_lookup_some lib (regexpFunction lib c p t1).2 p t2 re h2]

theorem regexpFunction_idempotent_caching_witness :
    (regexpFunction testLib [] "ab" "ab").1 =
      (if reAB.MatchString "ab" then 1 else 0, none) ∧
    (regexpFunction testLib (regexpFunction testLib [] "ab" "ab").2 "ab" "cd").1 =
      (if reAB.MatchString "cd" then 1 else 0, none) ∧
    (regexpFunction testLib (regexpFunction testLib [] "ab" "ab").2 "ab" "cd").2 =
      (regexpFunction testLib [] "ab" "ab").2 ∧
    GetCacheSize
        (regexpFunction testLib (regexpFunction testLib [] "ab" "ab").2 "ab" "cd").2 =
      GetCacheSize (regexpFunction testLib [] "ab" "ab").2 :=
  regexpFunction_idempotent_caching testLib [] "ab" "ab" "cd" reAB
    (Cache.WF_nil testLib) rfl

/-- C4: clearing replaces the mapping with an empty one: `GetCacheSize` of
the cleared cache is 0, a pattern that was cached before the clear misses
the cleared cache, and a subsequent `regexpFunction` call on it recompiles
the pattern, stores it, and restores the size to 1. -/
theorem clearRegexpCache_isolation (lib : RegexpLib) (c : Cache)
    (p t : String) (re : Regexp) (hwf : Cache.WF lib c)
    (hcached : Cache.lookup c p = some re) :
    GetCacheSize ClearRegexpCache = 0 ∧
    Cache.lookup ClearRegexpCache p = none ∧
    regexpFunction lib ClearRegexpCache p t =
      ((if re.MatchString t then 1 else 0, none),
        Cache.insert ClearRegexpCache p re) ∧
    GetCacheSize (regexpFunction lib ClearRegexpCache p t).2 = 1 := by
  have hc := hwf p re hcached
  refine ⟨rfl, rfl, ?_, ?_⟩
  · exact regexpFunction_of_miss_ok lib ClearRegexpCache p t re rfl hc
  · rw [regexpFunction_of_miss_ok lib ClearRegexpCache p t re rfl hc]
    rfl

theorem clearRegexpCache_isolation_witness :
    GetCacheSize ClearRegexpCache = 0 ∧
    Cache.lookup ClearRegexpCache "ab" = none ∧
    regexpFunction testLib ClearRegexpCache "ab" "x" =
      ((if reAB.MatchString "x" then 1 else 0, none),
        Cache.insert ClearRegexpCache "ab" reAB) ∧
    GetCacheSize (regexpFunction testLib ClearRegexpCache "ab" "x").2 = 1 :=
  clearRegexpCache_isolation testLib [("ab", reAB)] "ab" "x" reAB testCache_WF rfl

/-- C5: when compilation of a pattern fails, `regexpFunction` returns exactly
the error value produced by the compiler (verbatim, not swallowed and not
replaced by a fallback) together with the integer 0, and the cache is left
exactly as it was (a single compilation attempt, no retry). -/
theorem regexpFunction_propagates_compile_error (lib : RegexpLib) (c : Cache)
    (p t e : String) (hl : Cache.lookup c p = none)
    (hc : lib.compile p = Except.error e) :
    regexpFunction lib c p t = ((0, some e), c) :=
  regexpFunction_of_miss_error lib c p t e hl hc

theorem regexpFunction_propagates_compile_error_witness :
    regexpFunction testLib [] "[" "x" = ((0, some "missing closing ]"), []) :=
  regexpFunction_propagates_compile_error testLib [] "[" "x"
    "missing closing ]" rfl rfl

/-- C6: after any sequence of `regexpFunction` and `ClearRegexpCache`
operations starting from the initial empty cache, each pattern key maps to
at most one stored compiled matcher (the key list of the cache has no
duplicates). -/
theorem cache_at_most_one_matcher_per_pattern (lib : RegexpLib) (ops : List Op) :
    Cache.UniqueKeys (runOps lib regexpCacheInit ops) :=
  Cache.uniqueKeys_runOps lib regexpCacheInit ops Cache.uniqueKeys_nil

/-- C7: `regexpFunction` never removes or changes an existing cache entry
(any binding present before the call is present unchanged after it), and a
single call changes `GetCacheSize` by exactly 0 or 1; only the explicit
clear operation resets the mapping. -/
theorem regexpFunction_cache_monotone (lib : RegexpLib) (c : Cache)
    (p t q : String) (re : Regexp) (h : Cache.lookup c q = some re) :
    Cache.lookup (regexpFunction lib c p t).2 q = some re ∧
    (GetCacheSize (regexpFunction lib c p t).2 = GetCacheSize c ∨
     GetCacheSize (regexpFunction lib c p t).2 = GetCacheSize c + 1) := by
  cases hl : Cache.lookup c p with
  | some re0 =>
    rw [regexpFunction_of_lookup_some lib c p t re0 hl]
    exact ⟨h, Or.inl rfl⟩
  | none =>
    cases hc : lib.compile p with
    | error e =>
      rw [regexpFunction_of_miss_error lib c p t e hl hc]
      exact ⟨h, Or.inl rfl⟩
    | ok re0 =>
      rw [regexpFunction_of_miss_ok lib c p t re0 hl hc]
      constructor
      · rw [Cache.lookup_insert]
        have hpq : ¬ p = q := by
          intro hpq
          subst hpq
          rw [hl] at h
          exact absurd h (by simp)
        rw [if_neg hpq]
        exact h
      · exact Or.inr (Cache.length_insert_of_lookup_none c p re0 hl)

theorem regexpFunction_cache_monotone_witness :
    Cache.lookup (regexpFunction testLib [("ab", reAB)] "cd" "x").2 "ab" =
      some reAB ∧
    (GetCacheSize (regexpFunction testLib [("ab", reAB)] "cd" "x").2 =
        GetCacheSize [("ab", reAB)] ∨
     GetCacheSize (regexpFunction testLib [("ab", reAB)] "cd" "x").2 =
        GetCacheSize [("ab", reAB)] + 1) :=
  regexpFunction_cache_monotone testLib [("ab", reAB)] "cd" "x" "ab" reAB rfl

/-- Models the first-use race of the concurrency section: two threads both
look up the same previously-unseen pattern under the read lock, both miss,
both compile it independently, and then their two stores serialize on the
exclusive write lock.  `reA` is the compiled object of the thread whose
store acquires the write lock first, `reB` that of the thread whose store
acquires it second; each store is the unconditional map assignment of the
source.  The host compiler allocates a fresh object on every call, so the
two threads hold distinct objects even for the same pattern text; the model
therefore takes the two objects as parameters. -/
def raceFirstUse (c : Cache) (p : String) (reA reB : Regexp) : Cache :=
  Cache.insert (Cache.insert c p reA) p reB

/-- A matcher that accepts every text. -/
def reAlways : Regexp := ⟨fun _ => true⟩

/-- A matcher that rejects every text. -/
def reNever : Regexp := ⟨fun _ => false⟩

/-- C8 counterexample: it is not the case that the writer that acquires the
exclusive lock first wins the store.  After the race on pattern "ab" where
the first store writes `reAlways` and the second store writes `reNever`,
the cache does not retain the object stored by the first writer. -/
theorem race_first_writer_wins_refuted :
    Cache.lookup (raceFirstUse [] "ab" reAlways reNever) "ab" ≠
      some reAlways := by
  intro h
  have h1 : Cache.lookup (raceFirstUse [] "ab" reAlways reNever) "ab" =
      some reNever := rfl
  rw [h1] at h
  have h2 : reNever = reAlways := by injection h
  have h3 := congrArg (fun r => Regexp.MatchString r "") h2
  simp [reNever, reAlways] at h3

/-- C8 amended: when two threads race to compile the same previously-unseen
pattern, both may compile independently, each store is an unconditional map
assignment under the exclusive lock, so the writer that acquires the
exclusive lock last wins the store and the compiled object of the earlier
writer is the one discarded (overwritten). -/
theorem race_last_writer_wins (c : Cache) (p : String) (reA reB : Regexp) :
    Cache.lookup (raceFirstUse c p reA reB) p = some reB := by
  unfold raceFirstUse
  rw [Cache.lookup_insert]
  simp

/-- C9: the observable result of the predicate adapter is independent of
prior cache state: after any sequence of `regexpFunction` and
`ClearRegexpCache` operations starting from the initial empty cache, a call
of `regexpFunction` returns the same (integer, error) pair as the reference
implementation that compiles the pattern fresh on every call. -/
theorem regexpFunction_observationally_pure (lib : RegexpLib) (ops : List Op)
    (p t : String) :
    (regexpFunction lib (runOps lib regexpCacheInit ops) p t).1 =
      referenceEvaluate lib p t :=
  regexpFunction_fst_eq_reference lib (runOps lib regexpCacheInit ops) p t
    (Cache.WF_runOps lib regexpCacheInit ops (Cache.WF_nil lib))

/-- C10: in every case the integer result of `regexpFunction` is either 0
or 1, and whenever it is not 0 the error is nil; equivalently, whenever the
error is non-nil the integer result is exactly 0. -/
theorem regexpFunction_error_result_zero (lib : RegexpLib) (c : Cache)
    (p t : String) :
    (regexpFunction lib c p t).1.1 = 0 ∨
    ((regexpFunction lib c p t).1.1 = 1 ∧
      (regexpFunction lib c p t).1.2 = none) := by
  cases hl : Cache.lookup c p with
  | some re =>
    rw [regexpFunction_of_lookup_some lib c p t re hl]
    by_cases hm : re.MatchString t <;> simp [hm]
  | none =>
    cases hc : lib.compile p with
    | error e =>
      rw [regexpFunction_of_miss_error lib c p t e hl hc]
      simp
    | ok re =>
      rw [regexpFunction_of_miss_ok lib c p t re hl hc]
      by_cases hm : re.MatchString t <;> simp [hm]

end SqliteRegexp
